import Mathlib

/-!
# scenesplit — verification of the segmentation engine and pipeline orchestration

Shallow embedding of the Rust sources of `wilmoore/scenesplit`.

Machine floating-point scalars (`f32`, `f64`) are embedded as an arbitrary
linear ordered field `F`; `f32::sqrt` is passed explicitly as a function
`sqrtF : F → F`, so every definition stays computable (instantiate `F := ℚ`
with any `sqrtF` to run them) while numerical claims are settled at the
exact-real instantiation `F := ℝ`, `sqrtF := Real.sqrt`.

Source files embedded below: `src/config.rs`, `src/video.rs`,
`src/embeddings.rs`, `src/segmentation.rs`, `src/output.rs`,
`src/processor.rs`, `src/error.rs`.
-/

namespace SceneSplit

/-- `config.rs`: `DetailLevel` — extraction granularity. -/
inductive DetailLevel where
  | Key
  | Summary
  | All
deriving DecidableEq

/-- `config.rs`: `DetailLevel::similarity_threshold`.
`0.92 / 0.85 / 0.75`, embedded as exact field constants. -/
def DetailLevel.similarity_threshold (F : Type) [LinearOrderedField F] :
    DetailLevel → F
  | .Key => 92 / 100
  | .Summary => 85 / 100
  | .All => 75 / 100

/-- `config.rs`: `DetailLevel::min_segment_frames`. -/
def DetailLevel.min_segment_frames : DetailLevel → ℕ
  | .Key => 90
  | .Summary => 45
  | .All => 15

/-- `config.rs`: `QualityPreset` — processing fidelity/speed preset. -/
inductive QualityPreset where
  | Fast
  | Balanced
  | Best
deriving DecidableEq

/-- `config.rs`: `QualityPreset::frame_sample_rate`. -/
def QualityPreset.frame_sample_rate : QualityPreset → ℕ
  | .Fast => 15
  | .Balanced => 5
  | .Best => 1

/-- `config.rs`: `QualityPreset::embedding_batch_size`. -/
def QualityPreset.embedding_batch_size : QualityPreset → ℕ
  | .Fast => 64
  | .Balanced => 32
  | .Best => 16

/-- `config.rs`: `QualityPreset::image_resize_factor` (`0.5 / 0.75 / 1.0`). -/
def QualityPreset.image_resize_factor (F : Type) [LinearOrderedField F] :
    QualityPreset → F
  | .Fast => 5 / 10
  | .Balanced => 75 / 100
  | .Best => 1

/-- `video.rs`: `Frame` — a decoded video frame. `data` is the raw RGB byte
buffer, `timestamp_seconds` is `f64`, embedded in `F`. -/
structure Frame (F : Type) where
  index : ℕ
  timestamp_seconds : F
  data : List ℕ
  width : ℕ
  height : ℕ
deriving DecidableEq

instance (F : Type) [Zero F] : Inhabited (Frame F) :=
  ⟨⟨0, 0, [], 0, 0⟩⟩

/-- `embeddings.rs`: `EmbeddedFrame` — a frame with its embedding vector. -/
structure EmbeddedFrame (F : Type) where
  frame : Frame F
  embedding : List F
deriving DecidableEq

instance (F : Type) [Zero F] : Inhabited (EmbeddedFrame F) :=
  ⟨⟨default, []⟩⟩

/-- `embeddings.rs`: `EmbeddedFrame::index` — the original frame index. -/
def EmbeddedFrame.index {F : Type} (ef : EmbeddedFrame F) : ℕ :=
  ef.frame.index

/-- `embeddings.rs`: `EmbeddedFrame::timestamp_seconds`. -/
def EmbeddedFrame.timestamp_seconds {F : Type} (ef : EmbeddedFrame F) : F :=
  ef.frame.timestamp_seconds

/-- `embeddings.rs`: `normalize_vector` — normalize a vector to unit length;
a vector of norm `0` is returned unchanged. `sqrtF` embeds `f32::sqrt`. -/
def normalize_vector {F : Type} [LinearOrderedField F] (sqrtF : F → F)
    (v : List F) : List F :=
  let norm : F := sqrtF ((v.map fun x => x * x).sum)
  if 0 < norm then v.map fun x => x / norm else v

/-- `embeddings.rs`: `cosine_similarity` — dot product of the zipped vectors
(the iterator `zip` truncates to the shorter argument). -/
def cosine_similarity {F : Type} [LinearOrderedField F] (a b : List F) : F :=
  (List.zipWith (fun x y => x * y) a b).sum

/-- `segmentation.rs`: `SemanticSegment`. -/
structure SemanticSegment (F : Type) where
  index : ℕ
  start_frame_idx : ℕ
  end_frame_idx : ℕ
  representative_frame : EmbeddedFrame F
  frame_count : ℕ
deriving DecidableEq

/-- `segmentation.rs`: `SemanticSegmenter` — threshold / minimum-length
configuration of the segmentation engine. -/
structure SemanticSegmenter (F : Type) where
  similarity_threshold : F
  min_segment_frames : ℕ

/-- `segmentation.rs`: `SemanticSegmenter::new`. -/
def SemanticSegmenter.new (F : Type) [LinearOrderedField F] (detail : DetailLevel) :
    SemanticSegmenter F :=
  { similarity_threshold := detail.similarity_threshold F
    min_segment_frames := detail.min_segment_frames }

/-- `segmentation.rs`: `SemanticSegmenter::create_segment`.  The Rust code
indexes `frames[representative_idx]`, `frames[0]` and `frames[len-1]` on a
never-empty slice; the embedding uses `getD` with the `Inhabited` default
for totality (every call site passes a non-empty list).  The `start_idx`
parameter is received but never used, exactly as in the source. -/
def create_segment {F : Type} [LinearOrderedField F] (s : SemanticSegmenter F)
    (index : ℕ) (frames : List (EmbeddedFrame F)) (start_idx : ℕ) :
    SemanticSegment F :=
  let representative_idx := frames.length / 2
  let representative := frames.getD representative_idx default
  { index := index
    start_frame_idx := (frames.getD 0 default).index
    end_frame_idx := (frames.getD (frames.length - 1) default).index
    representative_frame := representative
    frame_count := frames.length }

/-- `segmentation.rs`: `SemanticSegmenter::update_anchor` — exponential moving
average with `alpha = 0.9`, re-normalized (norm-`0` blend kept as is). -/
def update_anchor {F : Type} [LinearOrderedField F] (sqrtF : F → F)
    (s : SemanticSegmenter F) (current_anchor new_embedding : List F) : List F :=
  let alpha : F := 9 / 10
  let updated := List.zipWith (fun a b => alpha * a + (1 - alpha) * b)
    current_anchor new_embedding
  let norm : F := sqrtF ((updated.map fun x => x * x).sum)
  if 0 < norm then updated.map fun x => x / norm else updated

/-- `segmentation.rs`: the `for (i, current_frame) in ...enumerate().skip(1)`
loop of `SemanticSegmenter::segment`, plus the trailing
`if !segment_frames.is_empty()` close of the still-open segment.  State:
accumulated `segments`, `segment_start_idx`, the open `segment_frames`, and
`anchor_embedding`.  The progress callback is omitted: it does not influence
the returned value. -/
def segmentLoop {F : Type} [LinearOrderedField F] (sqrtF : F → F)
    (s : SemanticSegmenter F) :
    List (ℕ × EmbeddedFrame F) → List (SemanticSegment F) → ℕ →
    List (EmbeddedFrame F) → List F → List (SemanticSegment F)
  | [], segments, segment_start_idx, segment_frames, _ =>
      if segment_frames.isEmpty then segments
      else segments ++ [create_segment s segments.length segment_frames segment_start_idx]
  | (i, current_frame) :: rest, segments, segment_start_idx, segment_frames,
      anchor_embedding =>
      let similarity := cosine_similarity anchor_embedding current_frame.embedding
      let is_semantic_change := similarity < s.similarity_threshold
      let has_min_frames := s.min_segment_frames ≤ segment_frames.length
      if is_semantic_change ∧ has_min_frames then
        segmentLoop sqrtF s rest
          (segments ++ [create_segment s segments.length segment_frames segment_start_idx])
          i [current_frame] current_frame.embedding
      else
        segmentLoop sqrtF s rest segments segment_start_idx
          (segment_frames ++ [current_frame])
          (update_anchor sqrtF s anchor_embedding current_frame.embedding)

/-- `segmentation.rs`: `SemanticSegmenter::segment` — empty input yields `[]`;
otherwise the state starts at `segments = []`, `segment_start_idx = 0`,
`segment_frames = [frames[0]]`, `anchor = frames[0].embedding` and the loop
runs over the remaining frames with their enumeration indices. -/
def SemanticSegmenter.segment {F : Type} [LinearOrderedField F] (sqrtF : F → F)
    (s : SemanticSegmenter F) (embedded_frames : List (EmbeddedFrame F)) :
    List (SemanticSegment F) :=
  match embedded_frames with
  | [] => []
  | f0 :: rest =>
      segmentLoop sqrtF s (List.enumFrom 1 rest) [] 0 [f0] f0.embedding

/-- `error.rs`: the `Error` enum (payload paths and messages as strings). -/
inductive Error where
  | VideoNotFound (path : String)
  | UnsupportedFormat (path extension : String)
  | VideoDecode (path reason : String)
  | VideoCapture (msg : String)
  | Embedding (msg : String)
  | ModelLoad (msg : String)
  | Output (msg : String)
  | Io (msg : String)
  | OpenCV (msg : String)
  | Onnx (msg : String)
deriving DecidableEq

/-- A raw frame as produced by one successful `cap.read` followed by the
BGR→RGB conversion in `video.rs`: the pixel buffer and its dimensions. -/
structure RawFrame where
  data : List ℕ
  width : ℕ
  height : ℕ
deriving DecidableEq

/-- `video.rs`: `VideoMetadata`. -/
structure VideoMetadata (F : Type) where
  path : String
  width : ℕ
  height : ℕ
  fps : F
  frame_count : ℕ
  duration_seconds : F
  codec : String

/-- `video.rs`: the read loop of `VideoLoader::extract_frames`, with the
OpenCV capture modelled as the list of successfully decodable raw frames in
order (the loop stops at the first failed read).  A frame is emitted when
`frame_index.is_multiple_of(sample_rate)`, i.e. `frame_index % sample_rate = 0`
(like Rust, `is_multiple_of 0` holds exactly at index `0`); its timestamp is
`frame_index / fps` when `fps > 0`, else `0`. -/
def extractGo {F : Type} [LinearOrderedField F] (sample_rate : ℕ) (fps : F) :
    List RawFrame → ℕ → List (Frame F)
  | [], _ => []
  | r :: rest, frame_index =>
      (if frame_index % sample_rate = 0 then
        [{ index := frame_index
           timestamp_seconds := if 0 < fps then (frame_index : F) / fps else 0
           data := r.data
           width := r.width
           height := r.height }]
      else []) ++ extractGo sample_rate fps rest (frame_index + 1)

/-- `video.rs`: `VideoLoader::extract_frames` — sample rate taken from the
quality preset, frame indices starting at `0`.  The progress callback is
omitted: it does not influence the returned value. -/
def VideoLoader.extract_frames {F : Type} [LinearOrderedField F]
    (quality : QualityPreset) (fps : F) (raws : List RawFrame) : List (Frame F) :=
  extractGo quality.frame_sample_rate fps raws 0

/-- `output.rs`: `FrameMetadata` for one extracted representative frame. -/
structure FrameMetadata (F : Type) where
  filename : String
  segment_index : ℕ
  frame_index : ℕ
  timestamp_seconds : F
  timestamp_formatted : String

/-- Observable filesystem writes of the output stage: the numbered
representative image `k` (1-based, from `OutputWriter::write_frame`) and the
final `metadata.json` manifest (from `OutputWriter::write_metadata`). -/
inductive OutEvent where
  | image (k : ℕ)
  | manifest
deriving DecidableEq

/-- `output.rs`: the loop of `OutputWriter::write_frames` — writes image
`i + 1` for the segment at position `i` via the fallible `write_frame`
(modelled by the supplied `writeFrame`, covering JPEG encode + file write),
stopping at the first error; images already written stay written. -/
def writeFramesGo {F : Type}
    (writeFrame : SemanticSegment F → ℕ → Except Error (FrameMetadata F)) :
    List (SemanticSegment F) → ℕ →
    List OutEvent × Except Error (List (FrameMetadata F))
  | [], _ => ([], Except.ok [])
  | seg :: rest, i =>
      match writeFrame seg (i + 1) with
      | Except.error e => ([], Except.error e)
      | Except.ok md =>
          match writeFramesGo writeFrame rest (i + 1) with
          | (evs, Except.error e) => (OutEvent.image (i + 1) :: evs, Except.error e)
          | (evs, Except.ok mds) => (OutEvent.image (i + 1) :: evs, Except.ok (md :: mds))

/-- `output.rs`: `OutputWriter::write_frames` — `prepare()?` (directory
creation, modelled by the `prepare` result) then the write loop. -/
def OutputWriter.write_frames {F : Type} (prepare : Except Error Unit)
    (writeFrame : SemanticSegment F → ℕ → Except Error (FrameMetadata F))
    (segments : List (SemanticSegment F)) :
    List OutEvent × Except Error (List (FrameMetadata F)) :=
  match prepare with
  | Except.error e => ([], Except.error e)
  | Except.ok _ => writeFramesGo writeFrame segments 0

/-- `processor.rs`: `ProcessingResult`. -/
structure ProcessingResult (F : Type) where
  video_metadata : VideoMetadata F
  total_frames_processed : ℕ
  segments_detected : ℕ
  frames_extracted : ℕ
  output_dir : String
  metadata_path : String

/-- The external collaborators (video decode, ONNX model, filesystem) that
`SceneSplitProcessor::process` invokes, each modelled by its fallible
result exactly at the granularity of the `?` operators in the source. -/
structure PipelineDeps (F : Type) where
  /-- `VideoLoader::new(video_path)?` + `video.metadata()?`. -/
  loadMeta : Except Error (VideoMetadata F)
  /-- `video.extract_frames(...)?`. -/
  extract : Except Error (List (Frame F))
  /-- `EmbeddingModel::new(&self.model_path, self.quality)?`. -/
  mkModel : Except Error Unit
  /-- `embedding_model.compute_embeddings_batch(&frames, ...)?`. -/
  embed : List (Frame F) → Except Error (List (EmbeddedFrame F))
  /-- `OutputWriter::prepare` (`create_dir_all`). -/
  prepare : Except Error Unit
  /-- `OutputWriter::write_frame` for one segment and 1-based number. -/
  writeFrame : SemanticSegment F → ℕ → Except Error (FrameMetadata F)
  /-- The `serde_json::to_writer_pretty` + `File::create` part of
  `OutputWriter::write_metadata`. -/
  writeMeta : List (FrameMetadata F) → Except Error Unit
  /-- `OutputWriter::output_dir`. -/
  output_dir : String

/-- Observable outcome of one `SceneSplitProcessor::process` run: the
progress reports `(stage, current, total)` issued to the callback, the
filesystem write events, and the returned `Result`. -/
structure RunOutput (F : Type) where
  reports : List (String × ℕ × ℕ)
  events : List OutEvent
  result : Except Error (ProcessingResult F)

/-- `processor.rs`: `SceneSplitProcessor::process`, with each `?` unfolded
into a `match`; progress reports accumulate in order and the run aborts at
the first stage error, which is returned unchanged. -/
def process {F : Type} [LinearOrderedField F] (sqrtF : F → F)
    (detail : DetailLevel) (deps : PipelineDeps F) : RunOutput F :=
  let reports1 := [("Loading video", 0, 4)]
  match deps.loadMeta with
  | Except.error e => ⟨reports1, [], Except.error e⟩
  | Except.ok video_meta =>
  let reports2 := reports1 ++ [("Extracting frames", 1, 4)]
  match deps.extract with
  | Except.error e => ⟨reports2, [], Except.error e⟩
  | Except.ok frames =>
  let reports3 := reports2 ++ [("Computing embeddings", 1, 4)]
  match deps.mkModel with
  | Except.error e => ⟨reports3, [], Except.error e⟩
  | Except.ok _ =>
  match deps.embed frames with
  | Except.error e => ⟨reports3, [], Except.error e⟩
  | Except.ok embedded_frames =>
  let reports4 := reports3 ++ [("Detecting semantic changes", 2, 4)]
  let segmenter := SemanticSegmenter.new F detail
  let segments := segmenter.segment sqrtF embedded_frames
  let reports5 := reports4 ++ [("Writing output", 3, 4)]
  match OutputWriter.write_frames deps.prepare deps.writeFrame segments with
  | (evs, Except.error e) => ⟨reports5, evs, Except.error e⟩
  | (evs, Except.ok frame_metadata) =>
  match deps.writeMeta frame_metadata with
  | Except.error e => ⟨reports5, evs, Except.error e⟩
  | Except.ok _ =>
  ⟨reports5 ++ [("Complete", 4, 4)], evs ++ [OutEvent.manifest],
    Except.ok
      { video_metadata := video_meta
        total_frames_processed := frames.length
        segments_detected := segments.length
        frames_extracted := segments.length
        output_dir := deps.output_dir
        metadata_path := deps.output_dir ++ "/metadata.json" }⟩

/-- Specification-side view of the abort policy: the error of the first
failing stage in pipeline order, or `none` when every stage succeeds.
Written from the spec's words ("the orchestrator aborts the remaining stages
and propagates the failure verbatim"), to be compared with `process`. -/
def firstFailure {F : Type} [LinearOrderedField F] (sqrtF : F → F)
    (detail : DetailLevel) (deps : PipelineDeps F) : Option Error :=
  match deps.loadMeta with
  | Except.error e => some e
  | Except.ok _ =>
  match deps.extract with
  | Except.error e => some e
  | Except.ok frames =>
  match deps.mkModel with
  | Except.error e => some e
  | Except.ok _ =>
  match deps.embed frames with
  | Except.error e => some e
  | Except.ok embedded_frames =>
  let segments := (SemanticSegmenter.new F detail).segment sqrtF embedded_frames
  match deps.prepare with
  | Except.error e => some e
  | Except.ok _ =>
  match (writeFramesGo deps.writeFrame segments 0).2 with
  | Except.error e => some e
  | Except.ok mds =>
  match deps.writeMeta mds with
  | Except.error e => some e
  | Except.ok _ => none

/-! ## Helper development for the segmentation engine -/

/-- The finalized segments built from a list of frame blocks, the first one
receiving index `k` — each block is closed through `create_segment`. -/
def buildSegs {F : Type} [LinearOrderedField F] (s : SemanticSegmenter F) :
    ℕ → List (List (EmbeddedFrame F)) → List (SemanticSegment F)
  | _, [] => []
  | k, b :: bs => create_segment s k b 0 :: buildSegs s (k + 1) bs

/-- `create_segment` never reads its `start_idx` argument. -/
lemma create_segment_start_idx_irrelevant {F : Type} [LinearOrderedField F]
    (s : SemanticSegmenter F) (k : ℕ) (b : List (EmbeddedFrame F)) (x : ℕ) :
    create_segment s k b x = create_segment s k b 0 := rfl

/-- The segmentation loop splits its remaining input (the open segment frames
followed by the not-yet-visited frames) into non-empty consecutive blocks and
appends the segments built from them to the accumulator. -/
lemma segmentLoop_blocks {F : Type} [LinearOrderedField F] (sqrtF : F → F)
    (s : SemanticSegmenter F) :
    ∀ (rest : List (ℕ × EmbeddedFrame F)) (segments : List (SemanticSegment F))
      (startIdx : ℕ) (segFrames : List (EmbeddedFrame F)) (anchor : List F),
      segFrames ≠ [] →
      ∃ bs : List (List (EmbeddedFrame F)),
        bs ≠ [] ∧ (∀ b ∈ bs, b ≠ []) ∧
        bs.flatten = segFrames ++ rest.map Prod.snd ∧
        segmentLoop sqrtF s rest segments startIdx segFrames anchor
          = segments ++ buildSegs s segments.length bs := by
  intro rest
  induction rest with
  | nil =>
      intro segments startIdx segFrames anchor hne
      refine ⟨[segFrames], by simp, by simpa using hne, by simp, ?_⟩
      simp [segmentLoop, List.isEmpty_iff, hne, buildSegs,
        create_segment_start_idx_irrelevant]
  | cons p rest ih =>
      intro segments startIdx segFrames anchor hne
      obtain ⟨i, f⟩ := p
      by_cases hc : cosine_similarity anchor f.embedding < s.similarity_threshold
          ∧ s.min_segment_frames ≤ segFrames.length
      · obtain ⟨bs, hbs0, hbs1, hbs2, hbs3⟩ :=
          ih (segments ++ [create_segment s segments.length segFrames startIdx])
            i [f] f.embedding (by simp)
        refine ⟨segFrames :: bs, by simp, ?_, ?_, ?_⟩
        · intro b hb
          rcases List.mem_cons.mp hb with h | h
          · exact h ▸ hne
          · exact hbs1 b h
        · rw [List.flatten_cons, hbs2]
          simp
        · rw [segmentLoop, if_pos hc, hbs3]
          simp [buildSegs, create_segment_start_idx_irrelevant,
            Nat.add_comm segments.length 1, List.append_assoc]
      · obtain ⟨bs, hbs0, hbs1, hbs2, hbs3⟩ :=
          ih segments startIdx (segFrames ++ [f])
            (update_anchor sqrtF s anchor f.embedding) (by simp)
        refine ⟨bs, hbs0, hbs1, ?_, ?_⟩
        · rw [hbs2]
          simp
        · rw [segmentLoop, if_neg hc, hbs3]

/-- The segment at position `j` of `buildSegs s k bs` has index `k + j`. -/
lemma buildSegs_get_index {F : Type} [LinearOrderedField F]
    (s : SemanticSegmenter F) :
    ∀ (bs : List (List (EmbeddedFrame F))) (k j : ℕ)
      (hj : j < (buildSegs s k bs).length),
      ((buildSegs s k bs).get ⟨j, hj⟩).index = k + j := by
  intro bs
  induction bs with
  | nil => intro k j hj; simp [buildSegs] at hj
  | cons b bs ih =>
      intro k j hj
      cases j with
      | zero => simp [buildSegs, create_segment]
      | succ j =>
          have := ih (k + 1) j (by simpa [buildSegs] using hj)
          simpa [buildSegs, Nat.add_assoc, Nat.add_comm 1 j] using this

/-- The frame counts of `buildSegs` sum to the total length of the blocks. -/
lemma buildSegs_frame_count_sum {F : Type} [LinearOrderedField F]
    (s : SemanticSegmenter F) :
    ∀ (bs : List (List (EmbeddedFrame F))) (k : ℕ),
      ((buildSegs s k bs).map SemanticSegment.frame_count).sum
        = (bs.map List.length).sum := by
  intro bs
  induction bs with
  | nil => intro k; simp [buildSegs]
  | cons b bs ih => intro k; simp [buildSegs, create_segment, ih]

/-- On a non-empty input, `segment` produces exactly the segments built from
some non-empty consecutive block decomposition of the whole input. -/
lemma segment_eq_buildSegs {F : Type} [LinearOrderedField F] (sqrtF : F → F)
    (s : SemanticSegmenter F) (frames : List (EmbeddedFrame F))
    (h : frames ≠ []) :
    ∃ bs : List (List (EmbeddedFrame F)),
      bs ≠ [] ∧ (∀ b ∈ bs, b ≠ []) ∧ bs.flatten = frames ∧
      s.segment sqrtF frames = buildSegs s 0 bs := by
  match frames, h with
  | f0 :: rest, _ =>
      obtain ⟨bs, hbs0, hbs1, hbs2, hbs3⟩ :=
        segmentLoop_blocks sqrtF s (List.enumFrom 1 rest) [] 0 [f0] f0.embedding
          (by simp)
      refine ⟨bs, hbs0, hbs1, ?_, ?_⟩
      · rw [hbs2]; simp [List.enumFrom_map_snd]
      · simpa [SemanticSegmenter.segment] using hbs3

/-- The segment at position `j` of `buildSegs s k bs` (defaulted lookup) has
index `k + j`. -/
lemma buildSegs_getD_index {F : Type} [LinearOrderedField F] [Zero F]
    (s : SemanticSegmenter F) (d : SemanticSegment F) :
    ∀ (bs : List (List (EmbeddedFrame F))) (k j : ℕ),
      j < (buildSegs s k bs).length →
      ((buildSegs s k bs).getD j d).index = k + j := by
  intro bs
  induction bs with
  | nil => intro k j hj; simp [buildSegs] at hj
  | cons b bs ih =>
      intro k j hj
      cases j with
      | zero => simp [buildSegs, create_segment]
      | succ j =>
          have := ih (k + 1) j (by simpa [buildSegs, Nat.succ_lt_succ_iff] using hj)
          simpa [buildSegs, Nat.add_assoc, Nat.add_comm 1 j] using this

/-- Invariant of the segmentation loop: every closed segment except the final
one holds at least `min_segment_frames` frames, provided the accumulator
already does. -/
lemma segmentLoop_min_frames {F : Type} [LinearOrderedField F] (sqrtF : F → F)
    (s : SemanticSegmenter F) :
    ∀ (rest : List (ℕ × EmbeddedFrame F)) (segments : List (SemanticSegment F))
      (startIdx : ℕ) (segFrames : List (EmbeddedFrame F)) (anchor : List F),
      (∀ seg ∈ segments, s.min_segment_frames ≤ seg.frame_count) →
      segFrames ≠ [] →
      ∀ seg ∈ (segmentLoop sqrtF s rest segments startIdx segFrames anchor).dropLast,
        s.min_segment_frames ≤ seg.frame_count := by
  intro rest
  induction rest with
  | nil =>
      intro segments startIdx segFrames anchor hacc hne
      rw [segmentLoop]
      simp only [List.isEmpty_iff]
      rw [if_neg hne, List.dropLast_concat]
      exact hacc
  | cons p rest ih =>
      intro segments startIdx segFrames anchor hacc hne
      obtain ⟨i, f⟩ := p
      by_cases hc : cosine_similarity anchor f.embedding < s.similarity_threshold
          ∧ s.min_segment_frames ≤ segFrames.length
      · rw [segmentLoop, if_pos hc]
        refine ih _ i [f] f.embedding ?_ (by simp)
        intro seg hseg
        rcases List.mem_append.mp hseg with h | h
        · exact hacc seg h
        · rcases List.mem_singleton.mp h with rfl
          simpa [create_segment] using hc.2
      · rw [segmentLoop, if_neg hc]
        exact ih segments startIdx (segFrames ++ [f]) _ hacc (by simp)

/-! ## Concrete objects used by the witnesses -/

/-- A concrete frame with source index `0`. -/
def exFrame0 : Frame ℚ :=
  { index := 0, timestamp_seconds := 0, data := [], width := 2, height := 2 }

/-- A concrete frame with source index `1`. -/
def exFrame1 : Frame ℚ :=
  { index := 1, timestamp_seconds := 1 / 30, data := [], width := 2, height := 2 }

/-- An embedded frame with unit embedding `[1, 0]`. -/
def exEF0 : EmbeddedFrame ℚ := { frame := exFrame0, embedding := [1, 0] }

/-- An embedded frame with unit embedding `[0, 1]`, orthogonal to `exEF0`. -/
def exEF1 : EmbeddedFrame ℚ := { frame := exFrame1, embedding := [0, 1] }

/-- An inert rational stand-in for `f32::sqrt`, used by witnesses of the
structural claims (whose truth does not depend on the square root values). -/
def qSqrt : ℚ → ℚ := fun _ => 0

/-- The `Summary` segmenter over `ℚ` (threshold `0.85`, minimum `45`). -/
def segSummary : SemanticSegmenter ℚ := SemanticSegmenter.new ℚ DetailLevel.Summary

/-- A segmenter with threshold `1/2` and minimum segment length `1`, letting a
two-frame witness input break into two segments. -/
def segFine : SemanticSegmenter ℚ :=
  { similarity_threshold := 1 / 2, min_segment_frames := 1 }

/-! ## Claims -/

/-- C1: for every non-empty input, `SemanticSegmenter::segment` returns
segments that exactly partition the input — the output is `buildSegs` over a
non-empty decomposition of the input into non-empty consecutive blocks, each
segment's index equals its position in the output, and the `frame_count`
fields sum to the input length. -/
theorem c1_segment_partition (F : Type) [LinearOrderedField F] (sqrtF : F → F)
    (s : SemanticSegmenter F) (d : SemanticSegment F)
    (frames : List (EmbeddedFrame F)) (h : frames ≠ []) :
    (∃ bs : List (List (EmbeddedFrame F)),
        bs ≠ [] ∧ (∀ b ∈ bs, b ≠ []) ∧ bs.flatten = frames ∧
        s.segment sqrtF frames = buildSegs s 0 bs) ∧
    (∀ k : ℕ, k < (s.segment sqrtF frames).length →
        ((s.segment sqrtF frames).getD k d).index = k) ∧
    ((s.segment sqrtF frames).map SemanticSegment.frame_count).sum
      = frames.length := by
  obtain ⟨bs, hbs0, hbs1, hbs2, hbs3⟩ := segment_eq_buildSegs sqrtF s frames h
  refine ⟨⟨bs, hbs0, hbs1, hbs2, hbs3⟩, ?_, ?_⟩
  · intro k hk
    rw [hbs3] at hk ⊢
    simpa using buildSegs_getD_index s d bs 0 k hk
  · rw [hbs3, buildSegs_frame_count_sum, ← List.length_flatten, hbs2]

/-- Witness for C1 at the single-frame input `[exEF0]`. -/
theorem c1_segment_partition_witness :
    ([exEF0] : List (EmbeddedFrame ℚ)) ≠ [] ∧
    ((segSummary.segment qSqrt [exEF0]).map SemanticSegment.frame_count).sum
      = 1 :=
  ⟨by simp,
    (c1_segment_partition ℚ qSqrt segSummary
      { index := 0, start_frame_idx := 0, end_frame_idx := 0,
        representative_frame := exEF0, frame_count := 0 }
      [exEF0] (by simp)).2.2⟩

/-- C2: at every frame after the first, the open segment is closed and a new
one started precisely when both the cosine similarity between the anchor and
the frame's embedding is strictly below `similarity_threshold` and the open
segment already holds at least `min_segment_frames` frames; otherwise the
frame is appended to the open segment. -/
theorem c2_semantic_break_iff (F : Type) [LinearOrderedField F] (sqrtF : F → F)
    (s : SemanticSegmenter F) (i : ℕ) (f : EmbeddedFrame F)
    (rest : List (ℕ × EmbeddedFrame F)) (segments : List (SemanticSegment F))
    (startIdx : ℕ) (segFrames : List (EmbeddedFrame F)) (anchor : List F) :
    segmentLoop sqrtF s ((i, f) :: rest) segments startIdx segFrames anchor =
      if cosine_similarity anchor f.embedding < s.similarity_threshold
          ∧ s.min_segment_frames ≤ segFrames.length then
        segmentLoop sqrtF s rest
          (segments ++ [create_segment s segments.length segFrames startIdx])
          i [f] f.embedding
      else
        segmentLoop sqrtF s rest segments startIdx (segFrames ++ [f])
          (update_anchor sqrtF s anchor f.embedding) := rfl

/-- C3: the anchor state evolves by `anchor := normalize(0.9·anchor +
0.1·f.embedding)` when `f` is appended without a break, and is reset to
`f.embedding` exactly (no smoothing) when a break occurs at `f`. -/
theorem c3_anchor_evolution (F : Type) [LinearOrderedField F] (sqrtF : F → F)
    (s : SemanticSegmenter F) (i : ℕ) (f : EmbeddedFrame F)
    (rest : List (ℕ × EmbeddedFrame F)) (segments : List (SemanticSegment F))
    (startIdx : ℕ) (segFrames : List (EmbeddedFrame F)) (anchor : List F) :
    (update_anchor sqrtF s anchor f.embedding
      = normalize_vector sqrtF
          (List.zipWith (fun a b => (9 / 10 : F) * a + (1 / 10 : F) * b)
            anchor f.embedding)) ∧
    (¬ (cosine_similarity anchor f.embedding < s.similarity_threshold
          ∧ s.min_segment_frames ≤ segFrames.length) →
      segmentLoop sqrtF s ((i, f) :: rest) segments startIdx segFrames anchor
        = segmentLoop sqrtF s rest segments startIdx (segFrames ++ [f])
            (normalize_vector sqrtF
              (List.zipWith (fun a b => (9 / 10 : F) * a + (1 / 10 : F) * b)
                anchor f.embedding))) ∧
    ((cosine_similarity anchor f.embedding < s.similarity_threshold
          ∧ s.min_segment_frames ≤ segFrames.length) →
      segmentLoop sqrtF s ((i, f) :: rest) segments startIdx segFrames anchor
        = segmentLoop sqrtF s rest
            (segments ++ [create_segment s segments.length segFrames startIdx])
            i [f] f.embedding) := by
  have hfun : (fun a b : F => (9 / 10 : F) * a + (1 - 9 / 10) * b)
      = fun a b : F => (9 / 10 : F) * a + (1 / 10 : F) * b := by
    funext a b; norm_num
  have h1 : update_anchor sqrtF s anchor f.embedding
      = normalize_vector sqrtF
          (List.zipWith (fun a b => (9 / 10 : F) * a + (1 / 10 : F) * b)
            anchor f.embedding) := by
    simp only [update_anchor, normalize_vector, hfun]
  refine ⟨h1, ?_, ?_⟩
  · intro hcond
    rw [segmentLoop, if_neg hcond, h1]
  · intro hcond
    rw [segmentLoop, if_pos hcond]

/-- Witness for C3: with the orthogonal pair `exEF0`, `exEF1` under the
`Summary` policy, no break occurs (the open segment is too short) and the
anchor moves to the normalized blend. -/
theorem c3_anchor_evolution_witness :
    segmentLoop qSqrt segSummary [(1, exEF1)] [] 0 [exEF0] exEF0.embedding
      = segmentLoop qSqrt segSummary [] [] 0 [exEF0, exEF1]
          (normalize_vector qSqrt
            (List.zipWith (fun a b => (9 / 10 : ℚ) * a + (1 / 10 : ℚ) * b)
              exEF0.embedding exEF1.embedding)) := by
  refine (c3_anchor_evolution ℚ qSqrt segSummary 1 exEF1 [] [] 0 [exEF0]
    exEF0.embedding).2.1 ?_
  simp [segSummary, SemanticSegmenter.new, DetailLevel.min_segment_frames]

/-- C4: when a segment of `n` frames is closed, its representative is the
member at 0-indexed position `⌊n/2⌋`; consequently a single-frame input gives
exactly one segment with `frame_count = 1` represented by that frame. -/
theorem c4_representative_middle (F : Type) [LinearOrderedField F]
    (sqrtF : F → F) (s : SemanticSegmenter F) :
    (∀ (idx start_idx : ℕ) (b : List (EmbeddedFrame F))
        (hb : b.length / 2 < b.length),
      (create_segment s idx b start_idx).representative_frame
        = b.get ⟨b.length / 2, hb⟩) ∧
    (∀ f : EmbeddedFrame F, s.segment sqrtF [f]
        = [{ index := 0, start_frame_idx := f.index, end_frame_idx := f.index,
             representative_frame := f, frame_count := 1 }]) := by
  constructor
  · intro idx start_idx b hb
    simp [create_segment, List.getD_eq_getElem?_getD, List.getElem?_eq_getElem hb]
  · intro f
    simp [SemanticSegmenter.segment, List.enumFrom, segmentLoop, create_segment]

/-- Witness for C4: the representative of a closing two-frame segment is the
frame at position `⌊2/2⌋ = 1`, and `segment` on `[exEF0]` is the single
expected segment. -/
theorem c4_representative_middle_witness :
    (create_segment segSummary 0 [exEF0, exEF1] 0).representative_frame = exEF1 ∧
    segSummary.segment qSqrt [exEF0]
      = [{ index := 0, start_frame_idx := exEF0.index,
           end_frame_idx := exEF0.index, representative_frame := exEF0,
           frame_count := 1 }] := by
  constructor
  · have := (c4_representative_middle ℚ qSqrt segSummary).1 0 0 [exEF0, exEF1]
      (by norm_num)
    simpa using this
  · exact (c4_representative_middle ℚ qSqrt segSummary).2 exEF0

/-- C9: for every non-empty input, every returned segment except possibly the
last one holds at least `min_segment_frames` frames. -/
theorem c9_min_frames_except_last (F : Type) [LinearOrderedField F]
    (sqrtF : F → F) (s : SemanticSegmenter F)
    (frames : List (EmbeddedFrame F)) (h : frames ≠ []) :
    ∀ seg ∈ (s.segment sqrtF frames).dropLast,
      s.min_segment_frames ≤ seg.frame_count := by
  match frames, h with
  | f0 :: rest, _ =>
      exact segmentLoop_min_frames sqrtF s (List.enumFrom 1 rest) [] 0 [f0]
        f0.embedding (by simp) (by simp)

/-- Witness for C9 at a two-frame input that breaks into two segments under
`segFine` (threshold `1/2`, minimum length `1`). -/
theorem c9_min_frames_except_last_witness :
    ([exEF0, exEF1] : List (EmbeddedFrame ℚ)) ≠ [] ∧
    ∀ seg ∈ (segFine.segment qSqrt [exEF0, exEF1]).dropLast,
      segFine.min_segment_frames ≤ seg.frame_count :=
  ⟨by simp,
    c9_min_frames_except_last ℚ qSqrt segFine [exEF0, exEF1] (by simp)⟩

/-- Dividing every mapped element of a list sum by a constant divides the
whole sum. -/
lemma list_sum_map_div {F : Type} [LinearOrderedField F] (v : List F)
    (g : F → F) (c : F) :
    (v.map fun x => g x / c).sum = (v.map g).sum / c := by
  induction v with
  | nil => simp
  | cons a v ih => simp [ih, add_div]

/-- C5: under exact-real semantics of `f32` (the stated `±1e-6` tolerance
absorbs rounding), `normalize_vector` maps every vector with a non-zero
component to a vector of L2 norm `1`, and returns a zero vector unchanged. -/
theorem c5_normalize_unit_norm :
    (∀ v : List ℝ, (∃ x ∈ v, x ≠ 0) →
      |Real.sqrt (((normalize_vector Real.sqrt v).map fun x => x * x).sum) - 1|
        ≤ 1 / 1000000) ∧
    (∀ v : List ℝ, (∀ x ∈ v, x = 0) → normalize_vector Real.sqrt v = v) := by
  constructor
  · intro v hv
    obtain ⟨x, hxv, hx0⟩ := hv
    set S : ℝ := (v.map fun x => x * x).sum with hSdef
    have hnn : ∀ y ∈ v.map fun x => x * x, 0 ≤ y := by
      intro y hy
      obtain ⟨z, _, rfl⟩ := List.mem_map.mp hy
      exact mul_self_nonneg z
    have hS0 : 0 ≤ S := List.sum_nonneg hnn
    have hxS : x * x ≤ S :=
      List.single_le_sum hnn (x * x) (List.mem_map_of_mem _ hxv)
    have hS : 0 < S := lt_of_lt_of_le (mul_self_pos.mpr hx0) hxS
    have hsq : 0 < Real.sqrt S := Real.sqrt_pos.mpr hS
    have hnv : normalize_vector Real.sqrt v
        = v.map fun y => y / Real.sqrt S := by
      simp only [normalize_vector, ← hSdef]
      rw [if_pos hsq]
    rw [hnv]
    have hcomp : ((fun x => x * x) ∘ fun y => y / Real.sqrt S)
        = fun y => (y * y) / S := by
      funext y
      simp only [Function.comp]
      rw [div_mul_div_comm, Real.mul_self_sqrt hS0]
    have hsum : (((v.map fun y => y / Real.sqrt S).map fun x => x * x).sum)
        = 1 := by
      rw [List.map_map, hcomp, list_sum_map_div v (fun y => y * y) S, ← hSdef,
        div_self (ne_of_gt hS)]
    rw [hsum, Real.sqrt_one]
    norm_num
  · intro v hv
    have hz : ((v.map fun x => x * x).sum) = 0 := by
      apply List.sum_eq_zero
      intro y hy
      obtain ⟨z, hzv, rfl⟩ := List.mem_map.mp hy
      rw [hv z hzv, mul_zero]
    simp only [normalize_vector, hz, Real.sqrt_zero]
    rw [if_neg (lt_irrefl 0)]

/-- Witness for C5 at `[3, 4]` (non-zero) and `[0, 0]` (zero vector). -/
theorem c5_normalize_unit_norm_witness :
    ((3 : ℝ) ∈ [(3 : ℝ), 4] ∧ (3 : ℝ) ≠ 0) ∧
    |Real.sqrt (((normalize_vector Real.sqrt [(3 : ℝ), 4]).map
        fun x => x * x).sum) - 1| ≤ 1 / 1000000 ∧
    normalize_vector Real.sqrt [(0 : ℝ), 0] = [(0 : ℝ), 0] :=
  ⟨⟨by simp, by norm_num⟩,
    c5_normalize_unit_norm.1 [(3 : ℝ), 4] ⟨3, by simp, by norm_num⟩,
    c5_normalize_unit_norm.2 [(0 : ℝ), 0] (by simp)⟩

/-- C10: `cosine_similarity` is a total function on every pair of vectors;
on vectors of different lengths it silently computes the dot product of the
common leading parts (`zip` truncation), as witnessed by invariance under
truncating both arguments to the shorter length. -/
theorem c10_cosine_similarity_truncates (F : Type) [LinearOrderedField F] :
    ∀ a b : List F,
      cosine_similarity a b
        = cosine_similarity (a.take (min a.length b.length))
            (b.take (min a.length b.length)) := by
  intro a
  induction a with
  | nil => intro b; simp [cosine_similarity]
  | cons x a ih =>
      intro b
      cases b with
      | nil => simp [cosine_similarity]
      | cons y b =>
          have hmin : min (x :: a).length (y :: b).length
              = min a.length b.length + 1 := by
            simp [Nat.succ_min_succ]
          rw [hmin, List.take_succ_cons, List.take_succ_cons]
          have h2 := ih b
          simp only [cosine_similarity, List.zipWith_cons_cons,
            List.sum_cons] at h2 ⊢
          rw [h2]

/-- Membership in the frame-extraction loop output forces a stride-aligned
index and the derived timestamp. -/
lemma extractGo_mem {F : Type} [LinearOrderedField F] (sample_rate : ℕ)
    (fps : F) :
    ∀ (raws : List RawFrame) (start : ℕ) (fr : Frame F),
      fr ∈ extractGo sample_rate fps raws start →
      fr.index % sample_rate = 0 ∧
      fr.timestamp_seconds = if 0 < fps then (fr.index : F) / fps else 0 := by
  intro raws
  induction raws with
  | nil => intro start fr h; simp [extractGo] at h
  | cons r raws ih =>
      intro start fr h
      rw [extractGo] at h
      rcases List.mem_append.mp h with h | h
      · by_cases hs : start % sample_rate = 0
        · rw [if_pos hs] at h
          rcases List.mem_singleton.mp h with rfl
          exact ⟨hs, rfl⟩
        · rw [if_neg hs] at h
          simp at h
      · exact ih (start + 1) fr h

/-- C8: every frame emitted by `VideoLoader::extract_frames` has a source
index that is an exact multiple of the sampling stride, with timestamp
`index / fps` when `fps > 0` and `0` otherwise; when at least one raw frame
decodes, the frame of index `0` is emitted. -/
theorem c8_extract_frames_stride (F : Type) [LinearOrderedField F]
    (quality : QualityPreset) (fps : F) (raws : List RawFrame) :
    (∀ fr ∈ VideoLoader.extract_frames quality fps raws,
      quality.frame_sample_rate ∣ fr.index ∧
      fr.timestamp_seconds = if 0 < fps then (fr.index : F) / fps else 0) ∧
    (raws ≠ [] →
      ∃ fr ∈ VideoLoader.extract_frames quality fps raws, fr.index = 0) := by
  constructor
  · intro fr hfr
    obtain ⟨h1, h2⟩ := extractGo_mem quality.frame_sample_rate fps raws 0 fr hfr
    exact ⟨Nat.dvd_of_mod_eq_zero h1, h2⟩
  · intro hne
    match raws, hne with
    | r :: rest, _ =>
        rw [VideoLoader.extract_frames, extractGo, if_pos (Nat.zero_mod _)]
        exact ⟨_, List.mem_append_left _ (List.mem_singleton_self _), rfl⟩

/-- Witness for C8: a one-raw-frame capture at `fps = 30` under the
`Balanced` preset emits the index-`0` frame. -/
theorem c8_extract_frames_stride_witness :
    ([(⟨[], 2, 2⟩ : RawFrame)] ≠ []) ∧
    ∃ fr ∈ VideoLoader.extract_frames QualityPreset.Balanced (30 : ℚ)
        [⟨[], 2, 2⟩], fr.index = 0 :=
  ⟨by simp,
    (c8_extract_frames_stride ℚ QualityPreset.Balanced 30 [⟨[], 2, 2⟩]).2
      (by simp)⟩

/-- The write loop emits image events `i+1, i+2, ...` for a leading run of
segments, the full run exactly when it succeeds, and never a manifest. -/
lemma writeFramesGo_events {F : Type}
    (wf : SemanticSegment F → ℕ → Except Error (FrameMetadata F)) :
    ∀ (segs : List (SemanticSegment F)) (i : ℕ),
      (∃ n, (writeFramesGo wf segs i).1
          = (List.range n).map fun k => OutEvent.image (i + k + 1)) ∧
      (∀ mds, (writeFramesGo wf segs i).2 = Except.ok mds →
        (writeFramesGo wf segs i).1
          = (List.range segs.length).map fun k => OutEvent.image (i + k + 1)) := by
  intro segs
  induction segs with
  | nil =>
      intro i
      exact ⟨⟨0, by simp [writeFramesGo]⟩, fun mds _ => by simp [writeFramesGo]⟩
  | cons seg rest ih =>
      intro i
      rcases hwf : wf seg (i + 1) with e | md
      · constructor
        · exact ⟨0, by simp [writeFramesGo, hwf]⟩
        · intro mds h
          rw [writeFramesGo, hwf] at h
          exact absurd h (by simp)
      · have hshift : ∀ n : ℕ,
            ((List.range n).map fun k => OutEvent.image (i + 1 + k + 1))
              = (List.range n).map fun k => OutEvent.image (i + (k + 1) + 1) := by
          intro n
          refine List.map_congr_left ?_
          intro k _
          exact congrArg OutEvent.image (by omega)
        have hcons : ∀ n : ℕ,
            (OutEvent.image (i + 1)
                :: ((List.range n).map fun k => OutEvent.image (i + 1 + k + 1)))
              = (List.range (n + 1)).map fun k => OutEvent.image (i + k + 1) := by
          intro n
          rw [List.range_succ_eq_map, List.map_cons, List.map_map, hshift]
          rfl
        rcases hrec : writeFramesGo wf rest (i + 1) with ⟨evs, r⟩
        obtain ⟨⟨n, hn⟩, hok⟩ := ih (i + 1)
        rw [hrec] at hn hok
        rcases r with e | mds
        · constructor
          · refine ⟨n + 1, ?_⟩
            rw [writeFramesGo, hwf, hrec]
            simp only at hn ⊢
            rw [hn, ← hcons n]
          · intro mds h
            rw [writeFramesGo, hwf, hrec] at h
            exact absurd h (by simp)
        · constructor
          · refine ⟨n + 1, ?_⟩
            rw [writeFramesGo, hwf, hrec]
            simp only at hn ⊢
            rw [hn, ← hcons n]
          · intro mds2 h
            have hlen := hok mds rfl
            simp only at hlen
            rw [writeFramesGo, hwf, hrec]
            simp only [List.length_cons]
            rw [hlen, ← hcons rest.length]

/-- No image-event run contains a manifest event. -/
lemma manifest_not_mem_image_run (n i : ℕ) :
    OutEvent.manifest ∉ (List.range n).map fun k => OutEvent.image (i + k + 1) := by
  intro h
  obtain ⟨k, _, hk⟩ := List.mem_map.mp h
  exact OutEvent.noConfusion hk

/-- Concrete video metadata used by the pipeline witnesses. -/
def exMeta : VideoMetadata ℚ :=
  { path := "video.mp4", width := 2, height := 2, fps := 30, frame_count := 0,
    duration_seconds := 0, codec := "h264" }

/-- Concrete frame metadata used by the pipeline witnesses. -/
def exFrameMeta : FrameMetadata ℚ :=
  { filename := "0001.jpg", segment_index := 0, frame_index := 0,
    timestamp_seconds := 0, timestamp_formatted := "00:00:00.000" }

/-- A dependency record in which every external stage succeeds. -/
def depsOk : PipelineDeps ℚ :=
  { loadMeta := Except.ok exMeta
    extract := Except.ok []
    mkModel := Except.ok ()
    embed := fun _ => Except.ok []
    prepare := Except.ok ()
    writeFrame := fun _ _ => Except.ok exFrameMeta
    writeMeta := fun _ => Except.ok ()
    output_dir := "scenesplit_output" }

/-- `depsOk` with a failing frame-extraction stage. -/
def depsFailExtract : PipelineDeps ℚ :=
  { depsOk with
    extract := Except.error
      (Error.VideoDecode "video.mp4" "Failed to open video file") }

/-- C6 as stated is false: on a successful run the orchestrator issues six
progress reports, not five, and the ordinals `0,1,1,2,3,4` are not strictly
increasing ("Extracting frames" and "Computing embeddings" both report `1`). -/
theorem c6_progress_counterexample :
    ¬ ((process qSqrt DetailLevel.Summary depsOk).reports.length = 5 ∧
       List.Pairwise (· < ·)
         ((process qSqrt DetailLevel.Summary depsOk).reports.map
           fun r => r.2.1)) := by
  intro h
  have hr : (process qSqrt DetailLevel.Summary depsOk).reports.length = 6 := rfl
  rw [h.1] at hr
  exact absurd hr (by norm_num)

/-- C6 (amended): on every successful run the orchestrator reports exactly
six milestones, `("Loading video",0,4)`, `("Extracting frames",1,4)`,
`("Computing embeddings",1,4)`, `("Detecting semantic changes",2,4)`,
`("Writing output",3,4)`, `("Complete",4,4)` — ordinals non-decreasing, with
ordinal `1` repeated. -/
theorem c6_progress_reports_amended (F : Type) [LinearOrderedField F]
    (sqrtF : F → F) (detail : DetailLevel) (deps : PipelineDeps F)
    (h : (process sqrtF detail deps).result.isOk = true) :
    (process sqrtF detail deps).reports
      = [("Loading video", 0, 4), ("Extracting frames", 1, 4),
         ("Computing embeddings", 1, 4), ("Detecting semantic changes", 2, 4),
         ("Writing output", 3, 4), ("Complete", 4, 4)] := by
  rcases hE1 : deps.loadMeta with e | meta
  · exact absurd h (by simp [process, hE1, Except.isOk, Except.toBool])
  rcases hE2 : deps.extract with e | frames
  · exact absurd h (by simp [process, hE1, hE2, Except.isOk, Except.toBool])
  rcases hE3 : deps.mkModel with e | u
  · exact absurd h (by simp [process, hE1, hE2, hE3, Except.isOk, Except.toBool])
  rcases hE4 : deps.embed frames with e | embedded
  · exact absurd h (by simp [process, hE1, hE2, hE3, hE4, Except.isOk, Except.toBool])
  rcases hw : OutputWriter.write_frames deps.prepare deps.writeFrame
      (SemanticSegmenter.segment sqrtF (SemanticSegmenter.new F detail) embedded)
    with ⟨evs, r⟩
  rcases r with e | mds
  · exact absurd h (by simp [process, hE1, hE2, hE3, hE4, hw, Except.isOk, Except.toBool])
  rcases hE5 : deps.writeMeta mds with e | u2
  · exact absurd h (by simp [process, hE1, hE2, hE3, hE4, hw, hE5, Except.isOk, Except.toBool])
  simp [process, hE1, hE2, hE3, hE4, hw, hE5]

/-- Witness for the amended C6 at the all-successful `depsOk`. -/
theorem c6_progress_reports_witness :
    (process qSqrt DetailLevel.Summary depsOk).result.isOk = true ∧
    (process qSqrt DetailLevel.Summary depsOk).reports
      = [("Loading video", 0, 4), ("Extracting frames", 1, 4),
         ("Computing embeddings", 1, 4), ("Detecting semantic changes", 2, 4),
         ("Writing output", 3, 4), ("Complete", 4, 4)] :=
  ⟨rfl, c6_progress_reports_amended ℚ qSqrt DetailLevel.Summary depsOk rfl⟩

/-- A manifest event never occurs among numbered-image events. -/
lemma manifest_not_mem_image_map (n : ℕ) (f : ℕ → ℕ) :
    OutEvent.manifest ∉ (List.range n).map fun k => OutEvent.image (f k) := by
  intro h
  obtain ⟨k, _, hk⟩ := List.mem_map.mp h
  exact OutEvent.noConfusion hk

/-- C7: a failing stage aborts the run — the pipeline result is an error
exactly when some stage fails, and then it is the first failing stage's
error, propagated verbatim; a failing run never writes the manifest; and
when the manifest is written, it is written after all `n` representative
images of a successful run with `n` detected segments. -/
theorem c7_failure_aborts (F : Type) [LinearOrderedField F] (sqrtF : F → F)
    (detail : DetailLevel) (deps : PipelineDeps F) :
    (∀ e : Error, firstFailure sqrtF detail deps = some e →
      (process sqrtF detail deps).result = Except.error e) ∧
    (∀ e : Error, (process sqrtF detail deps).result = Except.error e →
      firstFailure sqrtF detail deps = some e) ∧
    ((process sqrtF detail deps).result.isOk = false →
      OutEvent.manifest ∉ (process sqrtF detail deps).events) ∧
    (OutEvent.manifest ∈ (process sqrtF detail deps).events →
      ∃ n, (process sqrtF detail deps).events
          = ((List.range n).map fun k => OutEvent.image (k + 1))
            ++ [OutEvent.manifest]
        ∧ ∃ r, (process sqrtF detail deps).result = Except.ok r
            ∧ r.segments_detected = n) := by
  rcases hE1 : deps.loadMeta with e | meta
  · refine ⟨?_, ?_, ?_, ?_⟩ <;> simp [process, firstFailure, hE1]
  rcases hE2 : deps.extract with e | frames
  · refine ⟨?_, ?_, ?_, ?_⟩ <;> simp [process, firstFailure, hE1, hE2]
  rcases hE3 : deps.mkModel with e | u
  · refine ⟨?_, ?_, ?_, ?_⟩ <;> simp [process, firstFailure, hE1, hE2, hE3]
  rcases hE4 : deps.embed frames with e | embedded
  · refine ⟨?_, ?_, ?_, ?_⟩ <;>
      simp [process, firstFailure, hE1, hE2, hE3, hE4]
  rcases hE5 : deps.prepare with e | u2
  · refine ⟨?_, ?_, ?_, ?_⟩ <;>
      simp [process, firstFailure, hE1, hE2, hE3, hE4, hE5,
        OutputWriter.write_frames]
  obtain ⟨⟨n, hn⟩, hok⟩ := writeFramesGo_events deps.writeFrame
    (SemanticSegmenter.segment sqrtF (SemanticSegmenter.new F detail) embedded) 0
  rcases hw : writeFramesGo deps.writeFrame
      (SemanticSegmenter.segment sqrtF (SemanticSegmenter.new F detail) embedded) 0
    with ⟨evs, r⟩
  rw [hw] at hn hok
  dsimp only at hn hok
  have hman : OutEvent.manifest ∉ evs := by
    rw [hn]
    exact manifest_not_mem_image_map n _
  rcases r with e | mds
  · refine ⟨?_, ?_, ?_, ?_⟩
    · intro e2 he2
      simp [firstFailure, hE1, hE2, hE3, hE4, hE5, hw] at he2
      simp [process, hE1, hE2, hE3, hE4, hE5, OutputWriter.write_frames, hw,
        he2]
    · intro e2 he2
      simp [process, hE1, hE2, hE3, hE4, hE5, OutputWriter.write_frames, hw]
        at he2
      simp [firstFailure, hE1, hE2, hE3, hE4, hE5, hw, he2]
    · intro _
      have hev : (process sqrtF detail deps).events = evs := by
        simp [process, hE1, hE2, hE3, hE4, hE5, OutputWriter.write_frames, hw]
      rw [hev]
      exact hman
    · intro hmem
      have hev : (process sqrtF detail deps).events = evs := by
        simp [process, hE1, hE2, hE3, hE4, hE5, OutputWriter.write_frames, hw]
      rw [hev] at hmem
      exact absurd hmem hman
  rcases hE6 : deps.writeMeta mds with e | u3
  · refine ⟨?_, ?_, ?_, ?_⟩
    · intro e2 he2
      simp [firstFailure, hE1, hE2, hE3, hE4, hE5, hw, hE6] at he2
      simp [process, hE1, hE2, hE3, hE4, hE5, OutputWriter.write_frames, hw,
        hE6, he2]
    · intro e2 he2
      simp [process, hE1, hE2, hE3, hE4, hE5, OutputWriter.write_frames, hw,
        hE6] at he2
      simp [firstFailure, hE1, hE2, hE3, hE4, hE5, hw, hE6, he2]
    · intro _
      have hev : (process sqrtF detail deps).events = evs := by
        simp [process, hE1, hE2, hE3, hE4, hE5, OutputWriter.write_frames, hw,
          hE6]
      rw [hev]
      exact hman
    · intro hmem
      have hev : (process sqrtF detail deps).events = evs := by
        simp [process, hE1, hE2, hE3, hE4, hE5, OutputWriter.write_frames, hw,
          hE6]
      rw [hev] at hmem
      exact absurd hmem hman
  · have hevs : evs = (List.range (SemanticSegmenter.segment sqrtF
        (SemanticSegmenter.new F detail) embedded).length).map
          fun k => OutEvent.image (k + 1) := by
      have := hok mds rfl
      simpa using this
    refine ⟨?_, ?_, ?_, ?_⟩
    · intro e2 he2
      simp [firstFailure, hE1, hE2, hE3, hE4, hE5, hw, hE6] at he2
    · intro e2 he2
      simp [process, hE1, hE2, hE3, hE4, hE5, OutputWriter.write_frames, hw,
        hE6] at he2
    · intro hfalse
      have htrue : (process sqrtF detail deps).result.isOk = true := by
        simp [process, hE1, hE2, hE3, hE4, hE5, OutputWriter.write_frames, hw,
          hE6, Except.isOk, Except.toBool]
      rw [hfalse] at htrue
      exact absurd htrue (by simp)
    · intro _
      refine ⟨(SemanticSegmenter.segment sqrtF (SemanticSegmenter.new F detail)
          embedded).length, ?_, ?_⟩
      · have hev : (process sqrtF detail deps).events
            = evs ++ [OutEvent.manifest] := by
          simp [process, hE1, hE2, hE3, hE4, hE5, OutputWriter.write_frames,
            hw, hE6]
        rw [hev, hevs]
      · refine ⟨{ video_metadata := meta
                  total_frames_processed := frames.length
                  segments_detected := (SemanticSegmenter.segment sqrtF
                    (SemanticSegmenter.new F detail) embedded).length
                  frames_extracted := (SemanticSegmenter.segment sqrtF
                    (SemanticSegmenter.new F detail) embedded).length
                  output_dir := deps.output_dir
                  metadata_path := deps.output_dir ++ "/metadata.json" },
          ?_, rfl⟩
        simp [process, hE1, hE2, hE3, hE4, hE5, OutputWriter.write_frames, hw,
          hE6]

/-- Witness for C7 at `depsFailExtract`: the extraction failure is returned
verbatim and no manifest event occurs. -/
theorem c7_failure_aborts_witness :
    firstFailure qSqrt DetailLevel.Summary depsFailExtract
      = some (Error.VideoDecode "video.mp4" "Failed to open video file") ∧
    (process qSqrt DetailLevel.Summary depsFailExtract).result
      = Except.error
          (Error.VideoDecode "video.mp4" "Failed to open video file") ∧
    OutEvent.manifest ∉ (process qSqrt DetailLevel.Summary depsFailExtract).events :=
  ⟨rfl,
    (c7_failure_aborts ℚ qSqrt DetailLevel.Summary depsFailExtract).1 _ rfl,
    (c7_failure_aborts ℚ qSqrt DetailLevel.Summary depsFailExtract).2.2.1 rfl⟩

end SceneSplit
